import Mathlib

/-!
# Verification of the Football Pro asset-decoder core

Shallow embedding of the container/codec layer of the repository's decoders:

* `tools/scr_decoder.py` — TLV container walker (`parse_scr_file`), RLE codec
  (`decompress_rle`), block-aligned LZW codec (`DynamixLZW`), section
  dispatcher (`decompress_section`), nibble-plane combiner (`combine_nibbles`).
* `tools/anim_decoder.py` — LZ77 sprite codec (`decompress_lz77` and its inner
  `process_bit`).

Bytes are modelled as `Nat` (values 0..255 in every reachable state); byte
buffers as `List Nat`.  Loops that advance a cursor are modelled with an
explicit fuel argument chosen as a provable upper bound on the iteration
count, so every definition is executable and kernel-reducible.
-/

set_option maxRecDepth 4096

/-! ## RLE codec (`decompress_rle`, scr_decoder.py lines 214-241)

The Python loop runs `while pos < len(data) and len(output) < expected_size`,
reading a control byte `cmd`; high bit set repeats the next byte
`cmd & 0x7F` times, otherwise `cmd` literal bytes are copied (a zero count
only advances past the control byte).  Each iteration consumes at least one
input byte, so `data.length + 1` fuel is never exhausted. -/

def rleLoop (expected : Nat) : Nat → List Nat → List Nat → List Nat
  | 0, _, out => out
  | _ + 1, [], out => out
  | f + 1, cmd :: rest, out =>
    if out.length < expected then
      if cmd &&& 0x80 ≠ 0 then
        match rest with
        | [] => out
        | v :: rest2 => rleLoop expected f rest2 (out ++ List.replicate (cmd &&& 0x7F) v)
      else if cmd = 0 then
        rleLoop expected f rest out
      else
        rleLoop expected f (rest.drop cmd) (out ++ rest.take cmd)
    else out

def decompress_rle (data : List Nat) (expected : Nat) : List Nat :=
  (rleLoop expected (data.length + 1) data []).take expected

/-! ## Little-endian readers (struct.unpack_from on byte buffers) -/

def le16 (data : List Nat) (off : Nat) : Nat :=
  data.getD off 0 ||| (data.getD (off + 1) 0 <<< 8)

def le32 (data : List Nat) (off : Nat) : Nat :=
  data.getD off 0 ||| (data.getD (off + 1) 0 <<< 8) |||
    (data.getD (off + 2) 0 <<< 16) ||| (data.getD (off + 3) 0 <<< 24)

/-! ## LZ77 sprite codec (`decompress_lz77` / `process_bit`, anim_decoder.py 79-129)

`process_bit` with a clear flag bit appends one literal (mapped through the
64-entry color table when `< 64`); with a set flag bit it reads a 16-bit LE
back-reference and copies byte-by-byte from `len(output) - distance - 1`,
appending a zero for any source index outside the current output.  The copy
position is an `Int` because `distance` may exceed the output length.
The caller (`decode_animation`) pads the data buffer with 256 zero bytes, so
out-of-range reads of `data` are modelled with `getD _ 0`. -/

def lz77Literal (colorTable out : List Nat) (bv : Nat) : List Nat :=
  out ++ [if bv < 64 then colorTable.getD bv 0 else bv]

def lz77CopyLoop : List Nat → Int → Nat → List Nat
  | out, _, 0 => out
  | out, copyPos, r + 1 =>
    let b := if 0 ≤ copyPos ∧ copyPos < (out.length : Int) then out.getD copyPos.toNat 0 else 0
    lz77CopyLoop (out ++ [b]) (copyPos + 1) r

def lz77Backref (out : List Nat) (ref : Nat) : List Nat :=
  let copyLen := (ref &&& 0x0F) + 3
  let distance := ref >>> 4
  let copyPos : Int := (out.length : Int) - (distance : Int) - 1
  lz77CopyLoop out copyPos copyLen

def lz77ProcessBit (data colorTable : List Nat) (si : Nat) (flagBit : Nat)
    (out : List Nat) : Nat × List Nat :=
  if flagBit = 0 then
    (si + 1, lz77Literal colorTable out (data.getD si 0))
  else
    (si + 2, lz77Backref out (data.getD si 0 ||| (data.getD (si + 1) 0 <<< 8)))

def lz77Bits (data colorTable : List Nat) : Nat → Nat → Nat → List Nat → Nat × List Nat
  | 0, _, si, out => (si, out)
  | n + 1, flag, si, out =>
    let p := lz77ProcessBit data colorTable si ((flag >>> 7) &&& 1) out
    lz77Bits data colorTable n (flag <<< 1) p.1 p.2

def lz77Groups (data colorTable : List Nat) : Nat → Nat → List Nat → Nat × List Nat
  | 0, si, out => (si, out)
  | g + 1, si, out =>
    let p := lz77Bits data colorTable 8 (data.getD si 0) (si + 1) out
    lz77Groups data colorTable g p.1 p.2

def decompress_lz77 (data : List Nat) (offset : Nat) (colorTable : List Nat) : List Nat :=
  let groupsM1 := data.getD offset 0 ||| (data.getD (offset + 1) 0 <<< 8)
  let tailBits := data.getD (offset + 2) 0
  let p := lz77Groups data colorTable (groupsM1 + 1) (offset + 3) []
  if tailBits > 0 then
    (lz77Bits data colorTable tailBits (data.getD p.1 0) (p.1 + 1) p.2).2
  else p.2

/-! ## Nibble-plane combiner (`combine_nibbles`, scr_decoder.py 347-384)

The Python allocates zero-filled `bytearray(num_pixels)` planes and writes
positions `2*i` and `2*i+1` for `i < min(packed_size, len(plane))`, so a
position `p` holds a real nibble exactly when `p / 2 < min packed len`,
and zero otherwise.  BIN unpacks low nibble first; VGA high nibble first. -/

def binUnpack (binPixels : List Nat) (numPixels i : Nat) : Nat :=
  if i / 2 < min (numPixels / 2) binPixels.length then
    if i % 2 = 0 then binPixels.getD (i / 2) 0 &&& 0x0F
    else (binPixels.getD (i / 2) 0 >>> 4) &&& 0x0F
  else 0

def vgaUnpack (vgaPixels : List Nat) (numPixels i : Nat) : Nat :=
  if i / 2 < min (numPixels / 2) vgaPixels.length then
    if i % 2 = 0 then (vgaPixels.getD (i / 2) 0 >>> 4) &&& 0x0F
    else vgaPixels.getD (i / 2) 0 &&& 0x0F
  else 0

def combine_nibbles (binPixels vgaPixels : List Nat) (width height : Nat) : List Nat :=
  (List.range (width * height)).map fun i =>
    binUnpack binPixels (width * height) i ||| (vgaUnpack vgaPixels (width * height) i <<< 4)

/-! ## Block-aligned LZW codec (`DynamixLZW`, scr_decoder.py 83-211)

### Bit reader (`_get_code`, lines 116-146)

State mirrors `self._bits_data`, `self._bits_size` and the mutable `pos`
cell.  `_get_code` loops refilling the one-byte buffer when empty (returning
`None` with the mutations kept if the data is exhausted) and consuming
`min(bits_needed, bits_size)` bits per pass, placing them LSB-first.  Each
pass that recurses consumes at least one bit, so fuel `numBits + 1` is never
exhausted. -/

structure BitState where
  bitsData : Nat
  bitsSize : Nat
  pos : Nat
deriving DecidableEq, Repr

def BIT_MASKS : List Nat :=
  [0x0000, 0x0001, 0x0003, 0x0007, 0x000F, 0x001F, 0x003F, 0x007F,
   0x00FF, 0x01FF, 0x03FF, 0x07FF, 0x0FFF, 0x1FFF, 0x3FFF, 0x7FFF]

def getCodeAux (data : List Nat) (totalBits : Nat) :
    Nat → Nat → Nat → BitState → Option Nat × BitState
  | _, 0, result, s => (some result, s)
  | 0, _ + 1, _, s => (none, s)
  | f + 1, bn + 1, result, s =>
    match (if s.bitsSize = 0
           then (data.get? s.pos).map fun b => BitState.mk b 8 (s.pos + 1)
           else some s) with
    | none => (none, s)
    | some t =>
      let useBits := min (bn + 1) t.bitsSize
      let extracted := t.bitsData &&& BIT_MASKS.getD useBits 0
      getCodeAux data totalBits f (bn + 1 - useBits)
        (result ||| (extracted <<< (totalBits - (bn + 1))))
        ⟨t.bitsData >>> useBits, t.bitsSize - useBits, t.pos⟩

def getCode (data : List Nat) (numBits : Nat) (s : BitState) : Option Nat × BitState :=
  getCodeAux data numBits (numBits + 1) numBits 0 s

/-- Total bits consumed from the stream so far (`8 * pos` fetched minus the
`bitsSize` still buffered); `Int` to avoid truncated subtraction. -/
def consumedBits (s : BitState) : Int :=
  8 * (s.pos : Int) - (s.bitsSize : Int)

/-! ### Dictionary state (`reset` lines 105-114, growth lines 198-207)

The Python table maps `0..255` to single bytes and grows contiguously from
key `0x101`; we keep the grown part as `extras` (entry `257 + j` at index
`j`) together with the literal `_table_size`, `_table_max`, `_table_full`
and `_cache_bits` counters. -/

structure LZWState where
  extras : List (List Nat)
  codeSize : Nat
  tableSize : Nat
  tableMax : Nat
  tableFull : Bool
  cacheBits : Nat
deriving DecidableEq, Repr

def lzwReset : LZWState :=
  { extras := [], codeSize := 9, tableSize := 0x101, tableMax := 0x200,
    tableFull := false, cacheBits := 0 }

/-- Membership lookup in the Python dict: keys `0..255` map to their literal
byte, keys `257+` to the contiguously added entries, key `256` is never
present. -/
def lzwTableGet (st : LZWState) (code : Nat) : Option (List Nat) :=
  if code < 256 then some [code]
  else if 257 ≤ code then st.extras.get? (code - 257)
  else none

/-- Adding one entry (lines 199-207): append, bump `_table_size`, then grow
the code size when the new size hits `_table_max` below 12 bits, or freeze
the table once `_table_max` is reached at 12 bits. -/
def lzwDictAdd (st : LZWState) (entry : List Nat) : LZWState :=
  let st1 := { st with extras := st.extras ++ [entry], tableSize := st.tableSize + 1 }
  if st.tableSize + 1 = st.tableMax ∧ st.codeSize < 12 then
    { st1 with codeSize := st.codeSize + 1, tableMax := 1 <<< (st.codeSize + 1) }
  else if st.tableMax ≤ st.tableSize + 1 then
    { st1 with tableFull := true }
  else st1

/-- `_cache_bits` update at the top of each iteration (lines 168-170). -/
def lzwCacheStep (st : LZWState) : Nat :=
  let cb0 := st.cacheBits + st.codeSize
  if st.codeSize * 8 ≤ cb0 then cb0 - st.codeSize * 8 else cb0

/-- Clear-code alignment skip (lines 174-177): when `cacheBits > 0`, read and
discard `codeSize*8 - cacheBits` bits, keeping the cursor mutations even if
the read fails mid-way (the Python ignores the returned code). -/
def lzwHandleClear (data : List Nat) (codeSize cb : Nat) (bs : BitState) : BitState :=
  if 0 < cb then (getCode data (codeSize * 8 - cb) bs).2 else bs

/-- Main decode loop (lines 162-209).  Every iteration that recurses has read
one code of at least 9 bits, so at most `8*len/9 + 1 ≤ len + 1` iterations
happen and fuel `data.length + 2` is never exhausted. -/
def lzwLoop (data : List Nat) (expected : Nat) :
    Nat → BitState → LZWState → Option (List Nat) → List Nat → List Nat
  | 0, _, _, _, out => out
  | f + 1, bs, st, prev, out =>
    if out.length < expected then
      match getCode data st.codeSize bs with
      | (none, _) => out
      | (some code, bs') =>
        let cb := lzwCacheStep st
        if code = 0x100 then
          lzwLoop data expected f (lzwHandleClear data st.codeSize cb bs') lzwReset none out
        else
          let st1 := { st with cacheBits := cb }
          let cur? : Option (List Nat) :=
            match (if code < st1.tableSize then lzwTableGet st1 code else none) with
            | some s => some s
            | none =>
              match prev with
              | some p => if code = st1.tableSize then some (p ++ [p.headD 0]) else none
              | none => none
          match cur? with
          | none => out
          | some cur =>
            let out' := out ++ cur
            let stp : LZWState × Option (List Nat) :=
              match prev with
              | some p =>
                if st1.tableFull then (st1, some cur)
                else (lzwDictAdd st1 (p ++ [cur.headD 0]), some cur)
              | none => (st1, some cur)
            lzwLoop data expected f bs' stp.1 stp.2 out'
    else out

def lzwDecompress (data : List Nat) (expected : Nat) : List Nat :=
  (lzwLoop data expected (data.length + 2) ⟨0, 0, 0⟩ lzwReset none []).take expected

/-! ## Section dispatcher (`decompress_section`, scr_decoder.py 244-270) -/

def decompress_section (data : List Nat) : Option (List Nat) :=
  if data.length < 5 then none
  else
    let compType := data.getD 0 0
    let uncompSize := le32 data 1
    let payload := data.drop 5
    if compType = 0 then some (payload.take uncompSize)
    else if compType = 1 then some (decompress_rle payload uncompSize)
    else if compType = 2 then some (lzwDecompress payload uncompSize)
    else none

/-! ## TLV container walker (`parse_scr_file`, scr_decoder.py 273-344)

The walker records per-section diagnostics (tag, cleaned size, payload span:
the data the Python slices and prints for every child it visits) in
`sections`, and routes DIM:/BIN:/VGA:/VQT: payloads into the result record.
A DIM: section whose declared size is at least 4 but whose sliced payload is
shorter than 4 bytes makes `struct.unpack_from` raise `struct.error`,
modelled as `Except.error ()`.  A file shorter than 8 bytes whose first four
bytes read `SCR:` likewise raises inside the header unpack. -/

structure ScrSection where
  tag : List Nat
  size : Nat
  payload : List Nat
deriving DecidableEq, Repr

structure ScrResult where
  width : Nat
  height : Nat
  binData : Option (List Nat)
  vgaData : Option (List Nat)
  vqtData : Option (List Nat)
  sections : List ScrSection
deriving DecidableEq, Repr

def tagDIM : List Nat := [0x44, 0x49, 0x4D, 0x3A]

def tagBIN : List Nat := [0x42, 0x49, 0x4E, 0x3A]

def tagVGA : List Nat := [0x56, 0x47, 0x41, 0x3A]

def tagVQT : List Nat := [0x56, 0x51, 0x54, 0x3A]

def tagSCR : List Nat := [0x53, 0x43, 0x52, 0x3A]

def scrUpdate (r : ScrResult) (tag : List Nat) (sizeClean : Nat)
    (sectionData : List Nat) : Except Unit ScrResult :=
  let r0 := { r with sections := r.sections ++ [⟨tag, sizeClean, sectionData⟩] }
  if tag = tagDIM then
    if 4 ≤ sizeClean then
      if sectionData.length < 4 then Except.error ()
      else Except.ok { r0 with width := le16 sectionData 0, height := le16 sectionData 2 }
    else Except.ok r0
  else if tag = tagBIN then Except.ok { r0 with binData := some sectionData }
  else if tag = tagVGA then Except.ok { r0 with vgaData := some sectionData }
  else if tag = tagVQT then Except.ok { r0 with vqtData := some sectionData }
  else Except.ok r0

/-- Child-section loop (lines 308-342): stop when fewer than 8 bytes remain
or the tag fails ASCII decoding, otherwise slice `data[pos+8 : pos+8+size]`
and advance by `8 + size`.  Every iteration advances `pos` by at least 8, so
fuel `data.length + 1` is never exhausted. -/
def parseLoop (data : List Nat) : Nat → Nat → ScrResult → Except Unit ScrResult
  | 0, _, r => Except.ok r
  | f + 1, pos, r =>
    if pos < data.length then
      if data.length < pos + 8 then Except.ok r
      else
        let tag := (data.drop pos).take 4
        if tag.all (· < 128) then
          let sizeClean := le32 data (pos + 4) &&& 0x7FFFFFFF
          let sectionData := (data.drop (pos + 8)).take sizeClean
          match scrUpdate r tag sizeClean sectionData with
          | Except.error e => Except.error e
          | Except.ok r' => parseLoop data f (pos + 8 + sizeClean) r'
        else Except.ok r
    else Except.ok r

def scrInit : ScrResult :=
  { width := 320, height := 200, binData := none, vgaData := none,
    vqtData := none, sections := [] }

def parse_scr_file (data : List Nat) : Except Unit (Option ScrResult) :=
  if data.take 4 ≠ tagSCR then Except.ok none
  else if data.length < 8 then Except.error ()
  else
    match parseLoop data (data.length + 1) 8 scrInit with
    | Except.error e => Except.error e
    | Except.ok r => Except.ok (some r)

/-! ## Shared helper lemmas -/

theorem getD_length_sub_one (l : List Nat) (d : Nat) :
    l.getD (l.length - 1) d = l.getLastD d := by
  rw [List.getD_eq_getElem?_getD, List.getLastD_eq_getLast?, List.getLast?_eq_getElem?]

theorem getD_map_range (g : Nat → Nat) (n k : Nat) (hk : k < n) :
    ((List.range n).map g).getD k 0 = g k := by
  rw [List.getD_eq_getElem?_getD, List.getElem?_map, List.getElem?_range hk]
  rfl

/-- Copying forward from the last position of a non-empty output replicates
its last byte: each appended byte becomes the source of the next read. -/
theorem lz77CopyLoop_last (k : Nat) :
    ∀ out : List Nat, out ≠ [] →
      lz77CopyLoop out ((out.length : Int) - 1) k
        = out ++ List.replicate k (out.getLastD 0) := by
  induction k with
  | zero => intro out _; simp [lz77CopyLoop]
  | succ k ih =>
    intro out hne
    have hlen : 1 ≤ out.length := List.length_pos.mpr hne
    have hcond : (0 : Int) ≤ (out.length : Int) - 1 ∧
        (out.length : Int) - 1 < (out.length : Int) := by
      constructor <;> omega
    have htn : ((out.length : Int) - 1).toNat = out.length - 1 := by omega
    have hb : (if (0 : Int) ≤ (out.length : Int) - 1 ∧
          (out.length : Int) - 1 < (out.length : Int)
        then out.getD ((out.length : Int) - 1).toNat 0 else 0) = out.getLastD 0 := by
      rw [if_pos hcond, htn, getD_length_sub_one]
    rw [lz77CopyLoop, hb]
    have hlen2 : ((out ++ [out.getLastD 0]).length : Int) - 1 = (out.length : Int) - 1 + 1 := by
      simp
    have ih2 := ih (out ++ [out.getLastD 0]) (by simp)
    rw [hlen2] at ih2
    rw [ih2]
    have hcat : (out ++ [out.getLastD 0]).getLastD 0 = out.getLastD 0 := by
      rw [List.getLastD_eq_getLast?, List.getLast?_concat]
      rfl
    rw [hcat, List.append_assoc]
    congr 1

/-- C5: a back-reference with distance 0 on a non-empty output appends
`(ref &&& 0x0F) + 3` copies of the last output byte (the byte-by-byte copy
reads each byte it has just appended), and any copy-time source position
outside the current output range appends a zero byte instead of failing. -/
theorem lz77_backref_distance_zero (out : List Nat) (ref : Nat)
    (hne : out ≠ []) (hdist : ref >>> 4 = 0) :
    lz77Backref out ref = out ++ List.replicate ((ref &&& 0x0F) + 3) (out.getLastD 0)
    ∧ ∀ (out2 : List Nat) (cp : Int) (r : Nat),
        ¬(0 ≤ cp ∧ cp < (out2.length : Int)) →
        lz77CopyLoop out2 cp (r + 1) = lz77CopyLoop (out2 ++ [0]) (cp + 1) r := by
  constructor
  · have h1 : ((out.length : Int) - ((ref >>> 4 : Nat) : Int) - 1) = (out.length : Int) - 1 := by
      rw [hdist]; simp
    rw [lz77Backref, h1, lz77CopyLoop_last _ out hne]
  · intro out2 cp r hcp
    rw [lz77CopyLoop, if_neg hcp]

theorem lz77_backref_distance_zero_witness :
    lz77Backref [5] 1 = [5] ++ List.replicate ((1 &&& 0x0F) + 3) (([5] : List Nat).getLastD 0) :=
  (lz77_backref_distance_zero [5] 1 (by decide) (by decide)).1

/-- C6: an LZ77 literal below 64 is emitted as the caller-supplied color
table's entry for that byte; a literal of 64 or more is emitted unchanged,
whatever the table holds; and `process_bit` with a clear flag bit emits one
literal and advances the source cursor by one. -/
theorem lz77_literal_color_table (ct out data : List Nat) (bv si : Nat) :
    (bv < 64 → lz77Literal ct out bv = out ++ [ct.getD bv 0])
    ∧ (64 ≤ bv → lz77Literal ct out bv = out ++ [bv])
    ∧ lz77ProcessBit data ct si 0 out = (si + 1, lz77Literal ct out (data.getD si 0)) := by
  refine ⟨fun h => ?_, fun h => ?_, rfl⟩
  · rw [lz77Literal, if_pos h]
  · rw [lz77Literal, if_neg (by omega)]

theorem lz77_literal_color_table_witness :
    lz77Literal (List.replicate 64 7) [9] 3 = [9] ++ [(List.replicate 64 7).getD 3 0]
    ∧ lz77Literal (List.replicate 64 7) [9] 200 = [9] ++ [200] :=
  ⟨(lz77_literal_color_table (List.replicate 64 7) [9] [] 3 0).1 (by decide),
   (lz77_literal_color_table (List.replicate 64 7) [9] [] 200 0).2.1 (by decide)⟩

/-- C7: the combiner unpacks the low plane as (lowNibble, highNibble) per
byte and the high plane in the reversed (highNibble, lowNibble) order, then
forms `pixel = lowNibble ||| (highNibble <<< 4)`; on low-plane byte 0x21 and
high-plane byte 0x43 this gives pixels 0x41 and 0x32. -/
theorem combine_nibbles_plane_order (bin vga : List Nat) (w h i : Nat)
    (hlt : 2 * i + 1 < w * h) (hbin : i < bin.length) (hvga : i < vga.length) :
    (combine_nibbles bin vga w h).getD (2 * i) 0
        = (bin.getD i 0 &&& 0x0F) ||| (((vga.getD i 0 >>> 4) &&& 0x0F) <<< 4)
    ∧ (combine_nibbles bin vga w h).getD (2 * i + 1) 0
        = ((bin.getD i 0 >>> 4) &&& 0x0F) ||| ((vga.getD i 0 &&& 0x0F) <<< 4)
    ∧ combine_nibbles [0x21] [0x43] 2 1 = [0x41, 0x32] := by
  have hpk : i < min (w * h / 2) bin.length := by
    omega
  have hpk2 : i < min (w * h / 2) vga.length := by
    omega
  refine ⟨?_, ?_, by decide⟩
  · rw [combine_nibbles, getD_map_range _ _ _ (by omega)]
    rw [binUnpack, vgaUnpack]
    have he : (2 * i) / 2 = i := by omega
    have hm : (2 * i) % 2 = 0 := by omega
    rw [he, hm]
    rw [if_pos hpk, if_pos hpk2, if_pos rfl, if_pos rfl]
  · rw [combine_nibbles, getD_map_range _ _ _ (by omega)]
    rw [binUnpack, vgaUnpack]
    have he : (2 * i + 1) / 2 = i := by omega
    have hm : (2 * i + 1) % 2 = 1 := by omega
    rw [he, hm]
    rw [if_pos hpk, if_pos hpk2, if_neg (by omega), if_neg (by omega)]

theorem combine_nibbles_plane_order_witness :
    (combine_nibbles [0x21] [0x43] 2 1).getD 0 0
        = (([0x21] : List Nat).getD 0 0 &&& 0x0F) |||
          (((([0x43] : List Nat).getD 0 0 >>> 4) &&& 0x0F) <<< 4)
    ∧ (combine_nibbles [0x21] [0x43] 2 1).getD 1 0
        = ((([0x21] : List Nat).getD 0 0 >>> 4) &&& 0x0F) |||
          ((([0x43] : List Nat).getD 0 0 &&& 0x0F) <<< 4) :=
  ⟨(combine_nibbles_plane_order [0x21] [0x43] 2 1 0 (by decide) (by decide) (by decide)).1,
   (combine_nibbles_plane_order [0x21] [0x43] 2 1 0 (by decide) (by decide) (by decide)).2.1⟩

/-- C10: the combiner always returns exactly `width*height` pixels; a pixel
position past the end of a short low plane takes zero for the low nibble, so
the pixel is the high plane's nibble shifted alone; a position past the end
of a short high plane takes zero for the high nibble, so the pixel is the
low plane's nibble alone; and the pixel is zero when both planes are short. -/
theorem combine_nibbles_short_planes (bin vga : List Nat) (w h : Nat) :
    (combine_nibbles bin vga w h).length = w * h
    ∧ (∀ i, i < w * h → bin.length ≤ i / 2 →
        (combine_nibbles bin vga w h).getD i 0 = vgaUnpack vga (w * h) i <<< 4)
    ∧ (∀ i, i < w * h → vga.length ≤ i / 2 →
        (combine_nibbles bin vga w h).getD i 0 = binUnpack bin (w * h) i)
    ∧ (∀ i, i < w * h → bin.length ≤ i / 2 → vga.length ≤ i / 2 →
        (combine_nibbles bin vga w h).getD i 0 = 0) := by
  refine ⟨by simp [combine_nibbles], ?_, ?_, ?_⟩
  · intro i hi hshort
    rw [combine_nibbles, getD_map_range _ _ _ hi]
    have hb : binUnpack bin (w * h) i = 0 := by
      rw [binUnpack, if_neg (by omega)]
    rw [hb, Nat.zero_or]
  · intro i hi hshort
    rw [combine_nibbles, getD_map_range _ _ _ hi]
    have hv : vgaUnpack vga (w * h) i = 0 := by
      rw [vgaUnpack, if_neg (by omega)]
    rw [hv]
    rw [show (0 : Nat) <<< 4 = 0 from rfl, Nat.or_zero]
  · intro i hi hshort1 hshort2
    rw [combine_nibbles, getD_map_range _ _ _ hi]
    have hb : binUnpack bin (w * h) i = 0 := by
      rw [binUnpack, if_neg (by omega)]
    have hv : vgaUnpack vga (w * h) i = 0 := by
      rw [vgaUnpack, if_neg (by omega)]
    rw [hb, hv]
    decide

theorem combine_nibbles_short_planes_witness :
    (combine_nibbles [] [0x43] 2 1).length = 2
    ∧ (combine_nibbles [] [0x43] 2 1).getD 0 0 = vgaUnpack [0x43] 2 0 <<< 4
    ∧ (combine_nibbles [0x21] [] 2 1).getD 0 0 = binUnpack [0x21] 2 0
    ∧ (combine_nibbles [] [] 2 1).getD 1 0 = 0 :=
  ⟨(combine_nibbles_short_planes [] [0x43] 2 1).1,
   (combine_nibbles_short_planes [] [0x43] 2 1).2.1 0 (by decide) (by decide),
   (combine_nibbles_short_planes [0x21] [] 2 1).2.2.1 0 (by decide) (by decide),
   (combine_nibbles_short_planes [] [] 2 1).2.2.2 1 (by decide) (by decide) (by decide)⟩

/-- C8: each RLE control byte with the high bit set emits the single
following byte `control &&& 0x7F` times (nothing if the input ends right
after the control byte); a control byte without the high bit is a literal
count copied verbatim, a zero count only skipping the control byte; the
loop stops at the expected output length or at input exhaustion, and the
result never exceeds the expected length. -/
theorem rle_control_semantics (expected f : Nat) (data rest rest2 out : List Nat)
    (cmd v : Nat) :
    rleLoop expected f [] out = out
    ∧ (expected ≤ out.length → rleLoop expected (f + 1) (cmd :: rest) out = out)
    ∧ (out.length < expected → cmd &&& 0x80 ≠ 0 →
        rleLoop expected (f + 1) (cmd :: v :: rest2) out
          = rleLoop expected f rest2 (out ++ List.replicate (cmd &&& 0x7F) v))
    ∧ (out.length < expected → cmd &&& 0x80 ≠ 0 →
        rleLoop expected (f + 1) [cmd] out = out)
    ∧ (out.length < expected → cmd &&& 0x80 = 0 → cmd ≠ 0 →
        rleLoop expected (f + 1) (cmd :: rest) out
          = rleLoop expected f (rest.drop cmd) (out ++ rest.take cmd))
    ∧ (out.length < expected →
        rleLoop expected (f + 1) (0 :: rest) out = rleLoop expected f rest out)
    ∧ (decompress_rle data expected).length ≤ expected := by
  refine ⟨?_, ?_, ?_, ?_, ?_, ?_, ?_⟩
  · cases f <;> rfl
  · intro h
    simp only [rleLoop, if_neg (show ¬out.length < expected by omega)]
  · intro h1 h2
    simp only [rleLoop, if_pos h1, if_pos h2]
  · intro h1 h2
    simp only [rleLoop, if_pos h1, if_pos h2]
  · intro h1 h2 h3
    simp only [rleLoop, if_pos h1, if_neg (not_not_intro h2), if_neg h3]
  · intro h1
    simp [rleLoop, h1]
  · rw [decompress_rle]
    exact (List.length_take _ _).trans_le (Nat.min_le_left _ _)

theorem rle_control_semantics_witness :
    rleLoop 5 3 [0x83] [] = []
    ∧ rleLoop 5 3 (0x83 :: 7 :: [1]) []
        = rleLoop 5 2 [1] ([] ++ List.replicate (0x83 &&& 0x7F) 7)
    ∧ rleLoop 5 3 (2 :: [8, 9, 4]) []
        = rleLoop 5 2 ([8, 9, 4].drop 2) ([] ++ [8, 9, 4].take 2)
    ∧ (decompress_rle [3, 1, 2] 5).length ≤ 5 :=
  ⟨(rle_control_semantics 5 2 [] [] [] [] 0x83 0).2.2.2.1 (by decide) (by decide),
   (rle_control_semantics 5 2 [] [] [1] [] 0x83 7).2.2.1 (by decide) (by decide),
   (rle_control_semantics 5 2 [] [8, 9, 4] [] [] 2 0).2.2.2.2.1 (by decide) (by decide)
     (by decide),
   (rle_control_semantics 5 2 [3, 1, 2] [] [] [] 0 0).2.2.2.2.2.2⟩

/-- C3: after adding a dictionary entry, the code size increments exactly
when the new table size reaches the current power-of-two threshold
`_table_max` while the code size is below 12; from the initial 9-bit /
512-threshold configuration this is exactly the step where the table first
exceeds 511 entries. -/
theorem lzw_code_size_growth (st : LZWState) (entry : List Nat) :
    ((lzwDictAdd st entry).codeSize = st.codeSize + 1
        ↔ st.tableSize + 1 = st.tableMax ∧ st.codeSize < 12)
    ∧ (lzwDictAdd st entry).tableSize = st.tableSize + 1
    ∧ (st.codeSize = 9 → st.tableMax = 0x200 →
        ((lzwDictAdd st entry).codeSize = 10 ↔ st.tableSize = 511)) := by
  by_cases hgrow : st.tableSize + 1 = st.tableMax ∧ st.codeSize < 12
  · have hcs : (lzwDictAdd st entry).codeSize = st.codeSize + 1 := by
      simp [lzwDictAdd, hgrow]
    have hts : (lzwDictAdd st entry).tableSize = st.tableSize + 1 := by
      simp [lzwDictAdd, hgrow]
    refine ⟨by simp [hcs, hgrow], hts, ?_⟩
    intro h9 hmax
    rw [hcs, h9]
    have h1 := hgrow.1
    constructor
    · intro _; omega
    · intro _; rfl
  · have hcs : (lzwDictAdd st entry).codeSize = st.codeSize := by
      simp only [lzwDictAdd, if_neg hgrow]
      split <;> rfl
    have hts : (lzwDictAdd st entry).tableSize = st.tableSize + 1 := by
      simp only [lzwDictAdd, if_neg hgrow]
      split <;> rfl
    refine ⟨?_, hts, ?_⟩
    · rw [hcs]
      constructor
      · intro h; omega
      · intro hh; exact absurd hh hgrow
    · intro h9 hmax
      rw [hcs, h9]
      constructor
      · intro h; omega
      · intro h511
        exact absurd ⟨by rw [hmax]; omega, by rw [h9]; omega⟩ hgrow

theorem lzw_code_size_growth_witness :
    (lzwDictAdd ⟨[], 9, 511, 0x200, false, 0⟩ [0]).codeSize = 10 ↔ (511 : Nat) = 511 :=
  (lzw_code_size_growth ⟨[], 9, 511, 0x200, false, 0⟩ [0]).2.2 rfl rfl

/-- C1 counterexample: an RLE block declaring uncompressed size 5 with an
empty payload decodes to an empty buffer — the decoder does not pad the
output up to the declared size when the stream is exhausted. -/
theorem decompress_section_no_padding :
    (decompress_section [1, 5, 0, 0, 0]).map List.length
      ≠ some (le32 [1, 5, 0, 0, 0] 1) := by decide

/-- C1 (amended): for every compressed block accepted by the dispatcher
(method RAW, RLE, or LZW), the decoded output is clamped to at most the
declared uncompressed size; on early stream exhaustion it is the shorter
prefix produced so far, not padded. -/
theorem decompress_section_length_le (data out : List Nat)
    (h : decompress_section data = some out) : out.length ≤ le32 data 1 := by
  simp only [decompress_section] at h
  split at h
  · exact absurd h (by simp)
  · split at h
    · cases h
      exact (List.length_take _ _).trans_le (Nat.min_le_left _ _)
    · split at h
      · cases h
        rw [decompress_rle]
        exact (List.length_take _ _).trans_le (Nat.min_le_left _ _)
      · split at h
        · cases h
          rw [lzwDecompress]
          exact (List.length_take _ _).trans_le (Nat.min_le_left _ _)
        · exact absurd h (by simp)

theorem decompress_section_length_le_witness :
    ([7, 8] : List Nat).length ≤ le32 [0, 3, 0, 0, 0, 7, 8] 1 :=
  decompress_section_length_le [0, 3, 0, 0, 0, 7, 8] [7, 8] (by decide)

/-- C2 counterexample: a buffer whose DIM: section declares size 4 but ends
after 2 payload bytes makes the walker raise (the Python
`struct.unpack_from` on the truncated slice), contradicting the claimed
report-and-continue behaviour without crashing. -/
theorem parse_truncated_dim_crashes :
    parse_scr_file [0x53, 0x43, 0x52, 0x3A, 0, 0, 0, 0,
                    0x44, 0x49, 0x4D, 0x3A, 4, 0, 0, 0, 1, 2]
      = Except.error () := by rfl

/-- C2 (amended): a section whose declared size extends past the buffer end
has its payload silently truncated to the bytes actually available (no
out-of-bounds read and no structural-truncation report), and parsing stops
after it because the position advances past the buffer end — except that a
truncated DIM: section with declared size at least 4 but fewer than 4
payload bytes raises an error. -/
theorem parse_truncated_section (data : List Nat) (f pos : Nat) (r r' : ScrResult)
    (h8 : pos + 8 ≤ data.length)
    (hascii : ((data.drop pos).take 4).all (· < 128) = true)
    (hover : data.length < pos + 8 + (le32 data (pos + 4) &&& 0x7FFFFFFF))
    (hupd : scrUpdate r ((data.drop pos).take 4) (le32 data (pos + 4) &&& 0x7FFFFFFF)
        ((data.drop (pos + 8)).take (le32 data (pos + 4) &&& 0x7FFFFFFF)) = Except.ok r') :
    parseLoop data (f + 2) pos r = Except.ok r'
    ∧ ((data.drop (pos + 8)).take (le32 data (pos + 4) &&& 0x7FFFFFFF)).length
        = data.length - (pos + 8) := by
  have hlt : pos < data.length := by omega
  have h8n : ¬ data.length < pos + 8 := by omega
  have hstop : ¬ (pos + 8 + (le32 data (pos + 4) &&& 0x7FFFFFFF) < data.length) := by omega
  constructor
  · rw [show f + 2 = (f + 1) + 1 from rfl]
    simp only [parseLoop, if_pos hlt, if_neg h8n, if_pos hascii, hupd, if_neg hstop]
  · rw [List.length_take, List.length_drop]
    omega

theorem parse_truncated_section_witness :
    parseLoop [0x53, 0x43, 0x52, 0x3A, 0, 0, 0, 0,
               0x42, 0x49, 0x4E, 0x3A, 100, 0, 0, 0, 9, 9, 9] 2 8 scrInit
      = Except.ok ⟨320, 200, some [9, 9, 9], none, none,
                   [⟨[0x42, 0x49, 0x4E, 0x3A], 100, [9, 9, 9]⟩]⟩ :=
  (parse_truncated_section
    [0x53, 0x43, 0x52, 0x3A, 0, 0, 0, 0,
     0x42, 0x49, 0x4E, 0x3A, 100, 0, 0, 0, 9, 9, 9] 0 8 scrInit
    ⟨320, 200, some [9, 9, 9], none, none,
     [⟨[0x42, 0x49, 0x4E, 0x3A], 100, [9, 9, 9]⟩]⟩
    (by decide) (by decide) (by decide) (by rfl)).1

/-- C9: the TLV walker is a deterministic pure function of its input
buffer; two runs on equal buffers return equal results, and in particular
structurally identical section lists. -/
theorem parse_scr_file_deterministic (data data2 : List Nat) (h : data = data2) :
    parse_scr_file data = parse_scr_file data2
    ∧ ∀ r r2, parse_scr_file data = Except.ok (some r) →
        parse_scr_file data2 = Except.ok (some r2) → r.sections = r2.sections := by
  subst h
  refine ⟨rfl, ?_⟩
  intro r r2 h1 h2
  rw [h1] at h2
  cases h2
  rfl

theorem parse_scr_file_deterministic_witness :
    parse_scr_file [0x53, 0x43, 0x52, 0x3A, 0, 0, 0, 0]
      = parse_scr_file [0x53, 0x43, 0x52, 0x3A, 0, 0, 0, 0] :=
  (parse_scr_file_deterministic [0x53, 0x43, 0x52, 0x3A, 0, 0, 0, 0]
    [0x53, 0x43, 0x52, 0x3A, 0, 0, 0, 0] rfl).1

/-- Reading a code successfully consumes exactly the requested number of
bits from the stream (auxiliary induction over the reader's fuel). -/
theorem getCodeAux_consumed (data : List Nat) (total : Nat) :
    ∀ f bn r s c s', getCodeAux data total f bn r s = (some c, s') →
      consumedBits s' = consumedBits s + bn := by
  intro f
  induction f with
  | zero =>
    intro bn r s c s' h
    cases bn with
    | zero =>
      rw [getCodeAux] at h
      cases h
      simp [consumedBits]
    | succ k => exact absurd h (by simp [getCodeAux])
  | succ g ih =>
    intro bn r s c s' h
    cases bn with
    | zero =>
      rw [getCodeAux] at h
      cases h
      simp [consumedBits]
    | succ k =>
      rw [getCodeAux] at h
      by_cases hz : s.bitsSize = 0
      · rw [if_pos hz] at h
        cases hpos : data.get? s.pos with
        | none =>
          rw [hpos] at h
          simp at h
        | some b =>
          rw [hpos] at h
          simp only [Option.map_some'] at h
          have hrec := ih _ _ _ _ _ h
          simp only [consumedBits] at hrec ⊢
          omega
      · rw [if_neg hz] at h
        simp only at h
        have hrec := ih _ _ _ _ _ h
        simp only [consumedBits] at hrec ⊢
        omega

/-- Successful `getCode` advances the cursor by exactly `numBits` bits. -/
theorem getCode_consumed (data : List Nat) (numBits : Nat) (s : BitState)
    (c : Nat) (s' : BitState) (h : getCode data numBits s = (some c, s')) :
    consumedBits s' = consumedBits s + numBits :=
  getCodeAux_consumed data numBits _ _ _ _ _ _ h

/-- C4: when the decoder reads the clear code 0x100 it continues with the
dictionary rebuilt to its initial 257-entry state (codes 0..255 mapped to
their literal byte, nothing above), code size 9, cleared previous-string
memory and alignment counter, after discarding exactly the bits remaining
to the next `codeSize*8` block boundary (no bits when already aligned,
otherwise `codeSize*8 - cacheBits` bits, as witnessed by the cursor's
consumed-bit count when the skip succeeds). -/
theorem lzw_clear_code_resets (data : List Nat) (expected f : Nat) (bs bs' : BitState)
    (st : LZWState) (prev : Option (List Nat)) (out : List Nat)
    (hlen : out.length < expected)
    (hread : getCode data st.codeSize bs = (some 0x100, bs')) :
    lzwLoop data expected (f + 1) bs st prev out
        = lzwLoop data expected f
            (lzwHandleClear data st.codeSize (lzwCacheStep st) bs') lzwReset none out
    ∧ lzwReset.tableSize = 257 ∧ lzwReset.codeSize = 9 ∧ lzwReset.extras = []
    ∧ lzwReset.cacheBits = 0
    ∧ (∀ k, k < 256 → lzwTableGet lzwReset k = some [k])
    ∧ (∀ k, 256 ≤ k → lzwTableGet lzwReset k = none)
    ∧ (lzwCacheStep st = 0 → lzwHandleClear data st.codeSize (lzwCacheStep st) bs' = bs')
    ∧ (∀ c bs'', 0 < lzwCacheStep st →
        getCode data (st.codeSize * 8 - lzwCacheStep st) bs' = (some c, bs'') →
        lzwHandleClear data st.codeSize (lzwCacheStep st) bs' = bs''
        ∧ consumedBits bs''
            = consumedBits bs' + ((st.codeSize * 8 - lzwCacheStep st : Nat) : Int)) := by
  refine ⟨?_, rfl, rfl, rfl, rfl, ?_, ?_, ?_, ?_⟩
  · simp only [lzwLoop, if_pos hlen, hread, if_true]
  · intro k hk
    rw [lzwTableGet, if_pos hk]
  · intro k hk
    rw [lzwTableGet, if_neg (by omega)]
    by_cases h257 : 257 ≤ k
    · rw [if_pos h257]
      rfl
    · rw [if_neg h257]
  · intro h0
    rw [lzwHandleClear, if_neg (by omega)]
  · intro c bs'' hcb hskip
    refine ⟨?_, getCode_consumed _ _ _ _ _ hskip⟩
    rw [lzwHandleClear, if_pos hcb, hskip]

theorem lzw_clear_code_resets_witness :
    lzwLoop [0, 1] 1 1 ⟨0, 0, 0⟩ lzwReset none []
      = lzwLoop [0, 1] 1 0
          (lzwHandleClear [0, 1] lzwReset.codeSize (lzwCacheStep lzwReset) ⟨0, 7, 2⟩)
          lzwReset none [] :=
  (lzw_clear_code_resets [0, 1] 1 0 ⟨0, 0, 0⟩ ⟨0, 7, 2⟩ lzwReset none []
    (by decide) (by decide)).1
